import Mathlib

set_option maxRecDepth 20000

/-!
Verification development for the eisenscript-to-xml translator
(`eisenscript_to_xml.py`).  The Python source is shallowly embedded:

* the pyparsing grammar (`eisen_grammar`) becomes a deterministic
  character-level recognizer with the PEG-like semantics pyparsing
  implements (MatchFirst tries alternatives in order, And never
  backtracks, every element first skips whitespace, C++-style comments
  and ignored `set <word> ...` directives);
* the parse-result model (`PTrans`, `PLoop`, `PCall`, `PRule`,
  `PResults`) mirrors the named results the grammar produces;
* `trans_str`, `es_call` and `es_xml2` are ported function by function;
  the mutable `ElementTree` element appends become explicit list
  appends, and the shared `itertools.count()` counter becomes an
  explicit `Nat` threaded through the builders;
* `translate_eisen` keeps the control flow of the I/O wrapper: the
  output document exists only when `parseFile` (with its default
  `parseAll=False`, i.e. a valid prefix suffices) returned a result.
-/

/-! ### Models of the Python string primitives used by the source -/

/-- Characters stripped by Python `str.strip()`. -/
def isWSChar (c : Char) : Bool :=
  c == ' ' || c == '\t' || c == '\n' || c == '\r' || c == '\x0b' || c == '\x0c'

/-- Python `str.strip()` on a character list. -/
def pyStripL (l : List Char) : List Char :=
  ((l.dropWhile isWSChar).reverse.dropWhile isWSChar).reverse

/-- Python `str.strip()`. -/
def pyStrip (s : String) : String := String.mk (pyStripL s.data)

/-- Removal of trailing whitespace only (Python `str.rstrip()`),
used by the specification side of the normalizer claim. -/
def pyRStripL (l : List Char) : List Char := (l.reverse.dropWhile isWSChar).reverse

/-- Trailing-whitespace trim on strings. -/
def pyRStrip (s : String) : String := String.mk (pyRStripL s.data)

/-- Python `sep.join(list)`. -/
def pyJoin (sep : String) : List String → String
  | [] => ""
  | [x] => x
  | x :: y :: xs => x ++ sep ++ pyJoin sep (y :: xs)

/-- Concatenation of a list of strings (used by the claim-side
normalizer model). -/
def strConcat : List String → String
  | [] => ""
  | x :: xs => x ++ strConcat xs

/-! ### The parse-result data model

pyparsing returns dynamic `ParseResults`; the grammar of the source can
only ever populate the fields below.  `trans` and `count` sit inside
the loop groups, so at call level they are always empty/absent; the
fields are kept because `es_call` reads `pcall.trans` and `pcall.count`
in its zero-loop branch. -/

structure PTrans where
  tid : String
  tvalues : List String
deriving Repr, DecidableEq

structure PLoop where
  count : Option String
  trans : List PTrans
deriving Repr, DecidableEq

structure PCall where
  loop : List PLoop
  shape : String
  rule_name : String
  trans : List PTrans
  count : Option String
deriving Repr, DecidableEq

/-- One `Group(OneOrMore(call))` result: the `bcall`/`rcall` named
results collected inside it (listAllMatches). -/
structure PGroup where
  bcall : List PCall
  rcall : List PCall
deriving Repr, DecidableEq

structure PRule where
  name : String
  wm : Option String
  md : Option String
  successor_rule : Option String
  bcall : List PCall
  rcall : List PCall
deriving Repr, DecidableEq

structure PResults where
  global_md : Option String
  entry_calls : List PGroup
  rule_defs : List (List PRule)
deriving Repr, DecidableEq

/-! ### `trans_str`: the transform normalizer -/

/-- The two sequential `tid` rewrites inside the loop of `trans_str`:
`if t.tid == 's' and len(t) == 2: t.tid = 'sa'` (the group holds the
tid plus the values, so `len(t) == 2` means exactly one value), then
`if t.tid in ('x','y','z'): t.tid = 't' + t.tid`. -/
def norm_tid (t : PTrans) : String :=
  let tid := if t.tid = "s" ∧ t.tvalues.length = 1 then "sa" else t.tid
  if tid = "x" ∨ tid = "y" ∨ tid = "z" then "t" ++ tid else tid

/-- Port of `trans_str`: build `tstr` by appending
`t.tid + ' ' + ' '.join(t.tvalues) + ' '` per transform, then
`tstr.strip()`. -/
def trans_str (trans_list : List PTrans) : String :=
  pyStrip (trans_list.foldl
    (fun tstr t => tstr ++ norm_tid t ++ " " ++ pyJoin (" ") t.tvalues ++ " ") (""))

/-! ### `'{:02d}'.format(n)`: decimal rendering, zero-padded to width 2 -/

/-- Decimal digit character. -/
def digChar (d : Nat) : Char := Char.ofNat (48 + d)

/-- Fueled base-10 rendering (most significant digit first). -/
def natCharsAux : Nat → Nat → List Char
  | 0, _ => []
  | f + 1, n => if n < 10 then [digChar n] else natCharsAux f (n / 10) ++ [digChar (n % 10)]

/-- Base-10 rendering of a natural number. -/
def natChars (n : Nat) : List Char := natCharsAux (n + 1) n

/-- Python `'{:02d}'.format(k)`: zero-padded to a minimum width of two
(for `k < 100` the result has exactly two characters). -/
def pad2 (k : Nat) : String :=
  if k < 10 then String.mk ('0' :: natChars k) else String.mk (natChars k)

/-! ### The output document model

An `ElementTree` element is modelled by its tag and attributes; the
attribute holding the target (`shape` or `rule`) keeps its name. -/

structure XCall where
  tag : String
  transforms : String
  count : Option String
  attrName : String
  attrValue : String
deriving Repr, DecidableEq

structure XRule where
  name : String
  weight : Option String
  max_depth : Option String
  successor : Option String
  calls : List XCall
deriving Repr, DecidableEq

structure XDoc where
  max_depth : String
  rules : List XRule
deriving Repr, DecidableEq

/-- `atr_value` as computed at the top of `es_call`. -/
def atr_value_of (pcall : PCall) (is_bcall : Bool) : String :=
  if is_bcall then pcall.shape else pcall.rule_name

/-- Port of `es_call`.  The element appended to the current rule is the
first component; the rule appended to `top` (only in the `> 1` loops
branch) is the second; the third is the advanced counter `n`.  Python
guards `count` with truthiness; a parsed count is a nonempty string, so
`Option` is faithful. -/
def es_call (pcall : PCall) (is_bcall : Bool) (k : Nat) : XCall × Option XRule × Nat :=
  let call_type := if is_bcall then "instance" else "call"
  let atr_name := if is_bcall then "shape" else "rule"
  let atr_value := atr_value_of pcall is_bcall
  match pcall.loop with
  | [] =>
    ({ tag := call_type, transforms := trans_str pcall.trans, count := pcall.count,
       attrName := atr_name, attrValue := atr_value }, none, k)
  | [l0] =>
    ({ tag := call_type, transforms := trans_str l0.trans, count := l0.count,
       attrName := atr_name, attrValue := atr_value }, none, k)
  | l0 :: l1 :: _ =>
    let newname := atr_value ++ "_" ++ pad2 k
    ({ tag := call_type, transforms := trans_str l0.trans, count := l0.count,
       attrName := atr_name, attrValue := newname },
     some { name := newname, weight := none, max_depth := none, successor := none,
            calls := [{ tag := "call", transforms := trans_str l1.trans, count := l1.count,
                        attrName := atr_name, attrValue := atr_value }] },
     k + 1)

/-- Sequential `es_call` over a list of calls of one kind: the calls
appended to the current rule, the rules appended to `top`, and the
final counter. -/
def build_calls : List PCall → Bool → Nat → List XCall × List XRule × Nat
  | [], _, k => ([], [], k)
  | c :: cs, b, k =>
    let r := es_call c b k
    let rest := build_calls cs b r.2.2
    (r.1 :: rest.1, r.2.1.toList ++ rest.2.1, rest.2.2)

/-- One `for c in p.bcall ... for c in p.rcall` pass. -/
def build_group (g : PGroup) (k : Nat) : List XCall × List XRule × Nat :=
  let b := build_calls g.bcall true k
  let r := build_calls g.rcall false b.2.2
  (b.1 ++ r.1, b.2.1 ++ r.2.1, r.2.2)

/-- `for p in results.entry_calls` (the entry block matches once, but
the iteration is kept). -/
def build_entry : List PGroup → Nat → List XCall × List XRule × Nat
  | [], k => ([], [], k)
  | g :: gs, k =>
    let a := build_group g k
    let rest := build_entry gs a.2.2
    (a.1 ++ rest.1, a.2.1 ++ rest.2.1, rest.2.2)

/-- One iteration of `for p in results.rule_defs[0]`: the explicit rule
element (with its optional `weight`, `max_depth`, `successor`
attributes) plus the rules synthesized while emitting its calls. -/
def build_rule (p : PRule) (k : Nat) : XRule × List XRule × Nat :=
  let b := build_calls p.bcall true k
  let r := build_calls p.rcall false b.2.2
  ({ name := p.name, weight := p.wm, max_depth := p.md, successor := p.successor_rule,
     calls := b.1 ++ r.1 }, b.2.1 ++ r.2.1, r.2.2)

def build_rules : List PRule → Nat → List (XRule × List XRule) × Nat
  | [], k => ([], k)
  | p :: ps, k =>
    let a := build_rule p k
    let rest := build_rules ps a.2.2
    ((a.1, a.2.1) :: rest.1, rest.2)

/-- `results.rule_defs[0]` (the parse always yields a singleton list;
the Python indexing would raise on an empty one). -/
def rule_defs_head (r : PResults) : List PRule :=
  match r.rule_defs with
  | g :: _ => g
  | [] => []

/-- Port of `es_xml2`: the counter starts at 0, the root carries
`max_depth` (the parsed global setting or the `'1000'` default), the
`entry` rule is created first, rules synthesized from entry calls are
appended right after it, then each explicit rule followed by the rules
synthesized from its calls. -/
def es_xml2 (results : PResults) : XDoc :=
  let md := match results.global_md with
    | some v => v
    | none => "1000"
  let e := build_entry results.entry_calls 0
  let entryRule : XRule :=
    { name := "entry", weight := none, max_depth := none, successor := none, calls := e.1 }
  let rs := build_rules (rule_defs_head results) e.2.2
  { max_depth := md,
    rules := entryRule :: e.2.1 ++ (rs.1.map (fun pr => pr.1 :: pr.2)).flatten }

/-- The rules of the document that were synthesized by `es_call`
(in document order), as opposed to the entry rule and the explicit
rules. -/
def es_synth (results : PResults) : List XRule :=
  let e := build_entry results.entry_calls 0
  let rs := build_rules (rule_defs_head results) e.2.2
  e.2.1 ++ (rs.1.map (fun pr => pr.2)).flatten

/-! ### The grammar

pyparsing semantics, specialised to this grammar: every element first
runs `preParse` (skip whitespace — `" \n\t"` by default — interleaved
with the two registered ignorables, `cppStyleComment` and the
`set <ignored-word> <rest of line>` directive), then matches at the
current position.  `MatchFirst` (`|`) tries alternatives in order and
commits to the first success; `And` (`+`) never backtracks; `Optional`
and `ZeroOrMore` swallow failures without consuming input.  `oneOf`
with `caseless=True` compiles to `CaselessLiteral`s (returning the
canonical spelling, no word-boundary check) reordered so that a
longer alternative masked by an earlier shorter one is tried first;
`CaselessKeyword` additionally requires the next character to be
outside `alphanums + '_$'`. -/

abbrev P (α : Type) := List Char → Option (α × List Char)

def isPPWS (c : Char) : Bool := c == ' ' || c == '\n' || c == '\t'

def dropWS (l : List Char) : List Char := l.dropWhile isPPWS

/-- Scan to the end of a `/* ... */` comment (fails when unterminated,
as the `cppStyleComment` regex does). -/
def dropBlockClose : List Char → Option (List Char)
  | [] => none
  | '*' :: '/' :: rest => some rest
  | _ :: rest => dropBlockClose rest

/-- Try `cppStyleComment` at the current position. -/
def tryComment : List Char → Option (List Char)
  | '/' :: '*' :: rest => dropBlockClose rest
  | '/' :: '/' :: rest => some (rest.dropWhile (fun c => c != '\n'))
  | _ => none

/-- `CaselessLiteral` comparison: `A`-`Z` folded to lower case. -/
def lowerc (c : Char) : Char :=
  if 'A' ≤ c ∧ c ≤ 'Z' then Char.ofNat (c.toNat + 32) else c

/-- Match the characters of a literal caselessly. -/
def caselessChars : List Char → List Char → Option (List Char)
  | [], s => some s
  | _ :: _, [] => none
  | w :: ws, c :: cs => if lowerc c == lowerc w then caselessChars ws cs else none

def isAlphaChar (c : Char) : Bool := ('a' ≤ c && c ≤ 'z') || ('A' ≤ c && c ≤ 'Z')
def isDigitCh (c : Char) : Bool := '0' ≤ c && c ≤ '9'
def isAlnumChar (c : Char) : Bool := isAlphaChar c || isDigitCh c

/-- `Keyword.DEFAULT_KEYWORD_CHARS` is `alphanums + '_$'`. -/
def isIdentChar (c : Char) : Bool := isAlnumChar c || c == '_' || c == '$'

/-- `CaselessKeyword` at the current position (no skipping). -/
def kwChars (w : String) (s : List Char) : Option (List Char) :=
  match caselessChars w.data s with
  | some rest =>
    match rest with
    | [] => some []
    | c :: _ => if isIdentChar c then none else some rest
  | none => none

/-- `MatchFirst` over `CaselessLiteral`s at the current position. -/
def firstMatch (ws : List String) (s : List Char) : Option (String × List Char) :=
  match ws with
  | [] => none
  | w :: rest =>
    match caselessChars w.data s with
    | some r => some (w, r)
    | none => firstMatch rest s

/-- The `set` directives the grammar ignores (`set_words`). -/
def setWords : List String :=
  ["seed", "maxobjects", "maxsize", "minsize", "background", "colorpool",
   "translation", "rotation", "pivot", "scale", "raytracer", "syncrandom"]

/-- Try the ignorable `set_ignore = CaselessKeyword('set') + set_words
+ restOfLine` at the current position. -/
def trySetIgnore (s : List Char) : Option (List Char) :=
  match kwChars ("set") s with
  | none => none
  | some r1 =>
    match firstMatch setWords (dropWS r1) with
    | none => none
    | some (_, r2) => some (r2.dropWhile (fun c => c != '\n'))

/-- `preParse`: repeatedly drop whitespace and the two ignorables. -/
def preParseAux : Nat → List Char → List Char
  | 0, s => s
  | f + 1, s =>
    let s1 := dropWS s
    match tryComment s1 with
    | some s2 => preParseAux f s2
    | none =>
      match trySetIgnore s1 with
      | some s2 => preParseAux f s2
      | none => s1

def preParse (s : List Char) : List Char := preParseAux (s.length + 1) s

/-- `Literal` (used through `Suppress`). -/
def exactChars : List Char → List Char → Option (List Char)
  | [], s => some s
  | _ :: _, [] => none
  | w :: ws, c :: cs => if c == w then exactChars ws cs else none

def litP (w : String) : P Unit := fun s =>
  match exactChars w.data (preParse s) with
  | some r => some ((), r)
  | none => none

def ckwP (w : String) : P Unit := fun s =>
  match kwChars w (preParse s) with
  | some r => some ((), r)
  | none => none

/-- `oneOf(..., caseless=True)` as a parser. -/
def clitFirst (ws : List String) : P String := fun s =>
  match firstMatch ws (preParse s) with
  | some (w, r) => some (w, r)
  | none => none

/-- `Word(initChars, bodyChars)`: greedy, at least one character. -/
def wordP (initc bodyc : Char → Bool) : P String := fun s =>
  match preParse s with
  | [] => none
  | c :: cs =>
    if initc c then some (String.mk (c :: cs.takeWhile bodyc), cs.dropWhile bodyc)
    else none

/-- Adjacent `Word` (inside `Combine`): no skipping. -/
def wordAdj (bodyc : Char → Bool) (s : List Char) : Option (String × List Char) :=
  match s with
  | [] => none
  | c :: cs =>
    if bodyc c then some (String.mk (c :: cs.takeWhile bodyc), cs.dropWhile bodyc)
    else none

/-- `ZeroOrMore`, fueled; every expression repeated by this grammar
consumes at least one character per match, so fuel `s.length` is
enough. -/
def manyP {α : Type} (p : P α) : Nat → List Char → List α × List Char
  | 0, s => ([], s)
  | f + 1, s =>
    match p s with
    | none => ([], s)
    | some (a, s1) =>
      let r := manyP p f s1
      (a :: r.1, r.2)

def many1P {α : Type} (p : P α) : P (List α) := fun s =>
  match p s with
  | none => none
  | some (a, s1) =>
    let r := manyP p s1.length s1
    some (a :: r.1, r.2)

def manyzP {α : Type} (p : P α) (s : List Char) : List α × List Char := manyP p s.length s

/-- `fnum = Word(".+-*/()" + nums)`. -/
def fnumCharsL : List Char :=
  ['.', '+', '-', '*', '/', '(', ')', '0', '1', '2', '3', '4', '5', '6', '7', '8', '9']

def isFnumChar (c : Char) : Bool := fnumCharsL.elem c

def pFnum : P String := wordP isFnumChar isFnumChar

/-- `tid = oneOf('x y z s rx ry rz', caseless=True)`: no alternative
masks an earlier one, so the order is kept. -/
def tidWords : List String := ["x", "y", "z", "s", "rx", "ry", "rz"]

def pTid : P String := clitFirst tidWords

/-- `cid = oneOf('h hue sat b brightness a alpha m', caseless=True)`:
`hue`, `brightness` and `alpha` are masked by the shorter `h`, `b`, `a`
and get moved in front of them by `oneOf`. -/
def cidWords : List String := ["hue", "h", "sat", "brightness", "b", "alpha", "a", "m"]

def pCid : P String := clitFirst cidWords

def pTvalues : P (List String) := many1P pFnum

/-- `gtrans = Group(tid + tvalues)`. -/
def pGtrans : P PTrans := fun s =>
  match pTid s with
  | none => none
  | some (tid, s1) =>
    match pTvalues s1 with
    | none => none
    | some (vs, s2) => some ({ tid := tid, tvalues := vs }, s2)

/-- `ctrans = cid + tvalues` (color transform, result discarded). -/
def pCtrans : P Unit := fun s =>
  match pCid s with
  | none => none
  | some (_, s1) =>
    match pTvalues s1 with
    | none => none
    | some (_, s2) => some ((), s2)

def alnumHash (c : Char) : Bool := isAlnumChar c || c == '#'

/-- `c2trans = CaselessKeyword('color') + Word(alphanums + '#')`. -/
def pC2trans : P Unit := fun s =>
  match ckwP ("color") s with
  | none => none
  | some (_, s1) =>
    match wordP alnumHash alnumHash s1 with
    | none => none
    | some (_, s2) => some ((), s2)

/-- `c3trans = CaselessKeyword('blend') + Word(alphanums + '#') + fnum`. -/
def pC3trans : P Unit := fun s =>
  match ckwP ("blend") s with
  | none => none
  | some (_, s1) =>
    match wordP alnumHash alnumHash s1 with
    | none => none
    | some (_, s2) =>
      match pFnum s2 with
      | none => none
      | some (_, s3) => some ((), s3)

/-- `trans = gtrans | ctrans | c2trans | c3trans`; only `gtrans`
carries a named result. -/
def pTransC : P (Option PTrans) := fun s =>
  match pGtrans s with
  | some (t, s1) => some (some t, s1)
  | none =>
    match pCtrans s with
    | some (_, s1) => some (none, s1)
    | none =>
      match pC2trans s with
      | some (_, s1) => some (none, s1)
      | none =>
        match pC3trans s with
        | some (_, s1) => some (none, s1)
        | none => none

/-- `rule_name = NotAny(CaselessKeyword('rule')) + Word(alphas,
alphanums + '_')`. -/
def pRuleName : P String := fun s =>
  match ckwP ("rule") s with
  | some _ => none
  | none => wordP isAlphaChar (fun c => isAlnumChar c || c == '_') s

/-- `loop_multiplier = fnum('count') + Suppress('*')`. -/
def pLoopMult : P String := fun s =>
  match pFnum s with
  | none => none
  | some (cnt, s1) =>
    match litP ("*") s1 with
    | none => none
    | some (_, s2) => some (cnt, s2)

/-- `loop = Group(Optional(loop_multiplier) + Suppress('{') +
ZeroOrMore(trans) + Suppress('}'))`. -/
def pLoop : P PLoop := fun s =>
  let m := pLoopMult s
  let cnt : Option String := match m with | some (c, _) => some c | none => none
  let s1 : List Char := match m with | some (_, t) => t | none => s
  match litP ("\x7b") s1 with
  | none => none
  | some (_, s2) =>
    let ts := manyzP pTransC s2
    match litP ("\x7d") ts.2 with
    | none => none
    | some (_, s3) => some ({ count := cnt, trans := ts.1.filterMap id }, s3)

def shapeWords : List String := ["box", "grid", "sphere", "line"]

/-- `shape = Combine(shape_words + Optional(Word(alphas + ':')))`:
the optional suffix must be adjacent. -/
def pShape : P String := fun s =>
  match firstMatch shapeWords (preParse s) with
  | none => none
  | some (w, r) =>
    match wordAdj (fun c => isAlphaChar c || c == ':') r with
    | some (suf, r2) => some (w ++ suf, r2)
    | none => some (w, r)

/-- The `shape` tail of a `shape_call`, after the optional loop. -/
def pShapeCallTail (loops : List PLoop) : P PCall := fun s1 =>
  match pShape s1 with
  | none => none
  | some (sh, s2) =>
    some ({ loop := loops, shape := sh, rule_name := "", trans := [], count := none }, s2)

/-- `shape_call = Optional(loop) + shape` (at most one loop). -/
def pShapeCall : P PCall := fun s =>
  match pLoop s with
  | some (l, t) => pShapeCallTail [l] t
  | none => pShapeCallTail [] s

/-- The `rule_name` tail of a `rule_call`, after the loops. -/
def pRuleCallTail (loops : List PLoop) : P PCall := fun s1 =>
  match pRuleName s1 with
  | none => none
  | some (rn, s2) =>
    some ({ loop := loops, shape := "", rule_name := rn, trans := [], count := none }, s2)

/-- `rule_call = ZeroOrMore(loop) + rule_name`. -/
def pRuleCall : P PCall := fun s =>
  pRuleCallTail (manyzP pLoop s).1 (manyzP pLoop s).2

/-- `call = shape_call | rule_call`; the flag records which alternative
matched (`bcall` vs `rcall`). -/
def pCall : P (Bool × PCall) := fun s =>
  match pShapeCall s with
  | some (c, s1) => some ((true, c), s1)
  | none =>
    match pRuleCall s with
    | some (c, s1) => some ((false, c), s1)
    | none => none

def mdWords : List String := ["md", "maxdepth"]

/-- `md_mod = md + fnum('md') + Optional('>' + rule_name)`. -/
def pMdMod : P (String × Option String) := fun s =>
  match clitFirst mdWords s with
  | none => none
  | some (_, s1) =>
    match pFnum s1 with
    | none => none
    | some (v, s2) =>
      match litP (">") s2 with
      | some (_, s3) =>
        match pRuleName s3 with
        | none => some ((v, none), s2)
        | some (rn, s4) => some ((v, some rn), s4)
      | none => some ((v, none), s2)

/-- `weight = oneOf('w weight', caseless=True)`: `w` masks `weight`,
so `oneOf` moves `weight` first. -/
def weightWords : List String := ["weight", "w"]

def pWMod : P String := fun s =>
  match clitFirst weightWords s with
  | none => none
  | some (_, s1) => pFnum s1

/-- `Optional(md_mod) & Optional(w_mod)`: `Each` matches the two
optional modifiers in either order, at most once each. -/
def pMods : P (Option (String × Option String) × Option String) := fun s =>
  match pMdMod s with
  | some (m, s1) =>
    match pWMod s1 with
    | some (w, s2) => some ((some m, some w), s2)
    | none => some ((some m, none), s1)
  | none =>
    match pWMod s with
    | none => some ((none, none), s)
    | some (w, s1) =>
      match pMdMod s1 with
      | some (m, s2) => some ((some m, some w), s2)
      | none => some ((none, some w), s1)

/-- Split the calls of a body into the `bcall` and `rcall` named-result
lists (listAllMatches collects them per kind, in source order). -/
def splitCalls (l : List (Bool × PCall)) : List PCall × List PCall :=
  (l.filterMap (fun bc => if bc.1 then some bc.2 else none),
   l.filterMap (fun bc => if bc.1 then none else some bc.2))

/-- `rule = Group(Suppress(CaselessKeyword('rule')) + rule_name +
(Optional(md_mod) & Optional(w_mod)) + Suppress('{') + OneOrMore(call)
+ Suppress('}'))`. -/
def pRule : P PRule := fun s =>
  match ckwP ("rule") s with
  | none => none
  | some (_, s1) =>
    match pRuleName s1 with
    | none => none
    | some (nm, s2) =>
      match pMods s2 with
      | none => none
      | some (mods, s3) =>
        match litP ("\x7b") s3 with
        | none => none
        | some (_, s4) =>
          match many1P pCall s4 with
          | none => none
          | some (cs, s5) =>
            match litP ("\x7d") s5 with
            | none => none
            | some (_, s6) =>
              let sp := splitCalls cs
              some ({ name := nm, wm := mods.2, md := (mods.1).map Prod.fst,
                      successor_rule := (mods.1).bind Prod.snd,
                      bcall := sp.1, rcall := sp.2 }, s6)

/-- `entry = Group(OneOrMore(call))`. -/
def pEntry : P PGroup := fun s =>
  match many1P pCall s with
  | none => none
  | some (cs, s1) =>
    let sp := splitCalls cs
    some ({ bcall := sp.1, rcall := sp.2 }, s1)

/-- `main = Group(OneOrMore(rule))`. -/
def pMain : P (List PRule) := many1P pRule

/-- `global_md = CaselessKeyword('set') + md + fnum('global_md')`. -/
def pGlobalMd : P String := fun s =>
  match ckwP ("set") s with
  | none => none
  | some (_, s1) =>
    match clitFirst mdWords s1 with
    | none => none
    | some (_, s2) => pFnum s2

/-- `file_def = Optional(global_md) + entry + main`. -/
def pFileDef : P PResults := fun s =>
  let g := pGlobalMd s
  let gv : Option String := match g with | some (v, _) => some v | none => none
  let s1 : List Char := match g with | some (_, t) => t | none => s
  match pEntry s1 with
  | none => none
  | some (e, s2) =>
    match pMain s2 with
    | none => none
    | some (rs, s3) => some ({ global_md := gv, entry_calls := [e], rule_defs := [rs] }, s3)

/-- `file_def.parseFile(...)` with the default `parseAll=False`: a
match of a prefix succeeds and the remainder is returned untouched. -/
def parseES (src : String) : Option (PResults × List Char) := pFileDef src.data

/-- What `parseAll=True` would demand: nothing but skippable text may
remain after the match. -/
def parseAllES (src : String) : Option PResults :=
  match parseES src with
  | none => none
  | some (r, rest) => if preParse rest = [] then some r else none

/-- The translation pipeline of `translate_eisen`, with the file write
abstracted to the produced document: `open`/`write` run strictly after
`parseFile` and `es_xml2` returned, so a parse failure yields no
output at all. -/
def translate_eisen (src : String) : Option XDoc :=
  match parseES src with
  | none => none
  | some (r, _) => some (es_xml2 r)

/-! ### Specification-side definitions

`claim_code`/`trans_str_claim` restate the normalizer contract in the
words of the specification (the table of canonical codes and the
"append `<op> <v1> ... <vk> `, then trim trailing whitespace" build
rule), to be compared with the ported `trans_str`. -/

/-- The specification's normalization table: `s` with exactly one value
becomes `sa`, `s` with exactly three values stays `s`, `x|y|z` become
`tx|ty|tz`, `rx|ry|rz` stay themselves; combinations the specification
does not mention are out of its domain. -/
def claim_code (tid : String) (arity : Nat) : Option String :=
  if tid = "s" ∧ arity = 1 then some ("sa")
  else if tid = "s" ∧ arity = 3 then some ("s")
  else if tid = "x" then some ("tx")
  else if tid = "y" then some ("ty")
  else if tid = "z" then some ("tz")
  else if tid = "rx" ∨ tid = "ry" ∨ tid = "rz" then some tid
  else none

/-- One appended chunk, per the specification: the code, the values
separated by single spaces, a trailing space. -/
def chunk_claim (t : PTrans) : Option String :=
  (claim_code t.tid t.tvalues.length).map (fun c => c ++ " " ++ pyJoin (" ") t.tvalues ++ " ")

/-- The transform-list string as described by the specification:
chunks concatenated in source order, trailing whitespace trimmed. -/
def trans_str_claim (ts : List PTrans) : Option String :=
  (ts.mapM chunk_claim).map (fun l => pyRStrip (strConcat l))

/-- The chunk the ported code appends per transform. -/
def chunk_impl (t : PTrans) : String :=
  norm_tid t ++ " " ++ pyJoin (" ") t.tvalues ++ " "

/-! ### Extracting the sequence number of a synthesized rule name -/

/-- Numeric value of a digit string (most significant first). -/
def valDigits (l : List Char) : Nat := l.foldl (fun a c => a * 10 + (c.toNat - 48)) 0

/-- The run of characters after the last underscore. -/
def lastRun (l : List Char) : List Char := (l.reverse.takeWhile (fun c => c != '_')).reverse

/-- The counter value a synthesized name `target ++ "_" ++ pad2 k`
encodes. -/
def tagOf (s : String) : Nat := valDigits (lastRun s.data)

/-- `[k, k+1, ..., k+n-1]`. -/
def natRange : Nat → Nat → List Nat
  | _, 0 => []
  | k, n + 1 => k :: natRange (k + 1) n

/-! ### Concrete sources used by the claims -/

def esSrcBasic : String := "box rule r { box }"
def esSrcDup : String := "{x 1}{y 2} foo rule foo_00 { box } rule foo { box }"
def esSrcTwoLoopShape : String := "{x 1}{y 2} box rule r { box }"
def esSrcThreeLoops : String := "{x 1}{y 2}{z 3} foo rule foo { box }"
def esSrcTrailingDefine : String := "box rule r { box } #define X 1"
def esSrcLeadingDefine : String := "#define X 1\nbox rule r { box }"
def esSrcTrailingJunk : String := "box rule r { box } %%%"
def esSrcGlobalMd : String := "set md 12 box rule r { box }"

/-! ### Expected parse results and documents for the concrete sources -/

/-- A call with no loop wrapper naming the shape `box`. -/
def pcBox : PCall := { loop := [], shape := "box", rule_name := "", trans := [], count := none }

/-- The instance element `pcBox` produces. -/
def xcBox : XCall :=
  { tag := "instance", transforms := "", count := none, attrName := "shape", attrValue := "box" }

/-- Parse result of `esSrcBasic` (also the prefix result of
`esSrcTrailingDefine` and `esSrcTrailingJunk`). -/
def esResBasic : PResults :=
  { global_md := none,
    entry_calls := [{ bcall := [pcBox], rcall := [] }],
    rule_defs := [[{ name := "r", wm := none, md := none, successor_rule := none,
                     bcall := [pcBox], rcall := [] }]] }

def docBasic : XDoc :=
  { max_depth := "1000",
    rules := [{ name := "entry", weight := none, max_depth := none, successor := none,
                calls := [xcBox] },
              { name := "r", weight := none, max_depth := none, successor := none,
                calls := [xcBox] }] }

/-- Parse result of `esSrcDup`. -/
def esResDup : PResults :=
  { global_md := none,
    entry_calls := [{ bcall := [],
                      rcall := [{ loop := [{ count := none,
                                             trans := [{ tid := "x", tvalues := ["1"] }] },
                                           { count := none,
                                             trans := [{ tid := "y", tvalues := ["2"] }] }],
                                  shape := "", rule_name := "foo", trans := [],
                                  count := none }] }],
    rule_defs := [[{ name := "foo_00", wm := none, md := none, successor_rule := none,
                     bcall := [pcBox], rcall := [] },
                   { name := "foo", wm := none, md := none, successor_rule := none,
                     bcall := [pcBox], rcall := [] }]] }

/-- Parse result of `esSrcGlobalMd`. -/
def esResGlobalMd : PResults :=
  { global_md := some "12",
    entry_calls := [{ bcall := [pcBox], rcall := [] }],
    rule_defs := [[{ name := "r", wm := none, md := none, successor_rule := none,
                     bcall := [pcBox], rcall := [] }]] }

/-- Parse result of `esSrcThreeLoops`: the rule call keeps all three
loops. -/
def esResThreeLoops : PResults :=
  { global_md := none,
    entry_calls := [{ bcall := [],
                      rcall := [{ loop := [{ count := none,
                                             trans := [{ tid := "x", tvalues := ["1"] }] },
                                           { count := none,
                                             trans := [{ tid := "y", tvalues := ["2"] }] },
                                           { count := none,
                                             trans := [{ tid := "z", tvalues := ["3"] }] }],
                                  shape := "", rule_name := "foo", trans := [],
                                  count := none }] }],
    rule_defs := [[{ name := "foo", wm := none, md := none, successor_rule := none,
                     bcall := [pcBox], rcall := [] }]] }

/-- Document for `esSrcThreeLoops`: only the first two loops reach the
output. -/
def docThreeLoops : XDoc :=
  { max_depth := "1000",
    rules := [{ name := "entry", weight := none, max_depth := none, successor := none,
                calls := [{ tag := "call", transforms := "tx 1", count := none,
                            attrName := "rule", attrValue := "foo_00" }] },
              { name := "foo_00", weight := none, max_depth := none, successor := none,
                calls := [{ tag := "call", transforms := "ty 2", count := none,
                            attrName := "rule", attrValue := "foo" }] },
              { name := "foo", weight := none, max_depth := none, successor := none,
                calls := [xcBox] }] }

/-- Parse result of `esSrcTwoLoopShape`: the call is an `rcall` whose
`rule_name` is the shape word `box`. -/
def esResTwoLoopShape : PResults :=
  { global_md := none,
    entry_calls := [{ bcall := [],
                      rcall := [{ loop := [{ count := none,
                                             trans := [{ tid := "x", tvalues := ["1"] }] },
                                           { count := none,
                                             trans := [{ tid := "y", tvalues := ["2"] }] }],
                                  shape := "", rule_name := "box", trans := [],
                                  count := none }] }],
    rule_defs := [[{ name := "r", wm := none, md := none, successor_rule := none,
                     bcall := [pcBox], rcall := [] }]] }

/-- Document for `esSrcTwoLoopShape`: only `call` elements with a
`rule` attribute, no `instance` element for the doubly-looped `box`. -/
def docTwoLoopShape : XDoc :=
  { max_depth := "1000",
    rules := [{ name := "entry", weight := none, max_depth := none, successor := none,
                calls := [{ tag := "call", transforms := "tx 1", count := none,
                            attrName := "rule", attrValue := "box_00" }] },
              { name := "box_00", weight := none, max_depth := none, successor := none,
                calls := [{ tag := "call", transforms := "ty 2", count := none,
                            attrName := "rule", attrValue := "box" }] },
              { name := "r", weight := none, max_depth := none, successor := none,
                calls := [xcBox] }] }

/-- The doubly-looped rule call of the round-trip scenario:
`3 * { ry 10 } 2 * { rz 5 } foo`. -/
def pcC1 : PCall :=
  { loop := [{ count := some "3", trans := [{ tid := "ry", tvalues := ["10"] }] },
             { count := some "2", trans := [{ tid := "rz", tvalues := ["5"] }] }],
    shape := "", rule_name := "foo", trans := [], count := none }

/-- A rule call under three loops. -/
def pcC9 : PCall :=
  { loop := [{ count := none, trans := [{ tid := "x", tvalues := ["1"] }] },
             { count := none, trans := [{ tid := "y", tvalues := ["2"] }] },
             { count := none, trans := [{ tid := "z", tvalues := ["3"] }] }],
    shape := "", rule_name := "foo", trans := [], count := none }

/-- A transform list inside the domain of the specification's
normalization table. -/
def tsC4 : List PTrans :=
  [{ tid := "s", tvalues := ["7"] }, { tid := "x", tvalues := ["1"] },
   { tid := "rz", tvalues := ["5"] }, { tid := "s", tvalues := ["1", "2", "3"] }]

/-! ## Helper lemmas -/

theorem natRange_append (a : Nat) : ∀ (k b : Nat),
    natRange k (a + b) = natRange k a ++ natRange (k + a) b := by
  induction a with
  | zero => intro k b; simp [natRange]
  | succ n ih =>
    intro k b
    have h1 : n + 1 + b = (n + b) + 1 := by omega
    have h2 : k + (n + 1) = (k + 1) + n := by omega
    rw [h1, h2]
    show k :: natRange (k + 1) (n + b) = natRange k (n + 1) ++ natRange (k + 1 + n) b
    rw [ih (k + 1) b]
    rfl

theorem natRange_lb : ∀ (n k m : Nat), m ∈ natRange k n → k ≤ m := by
  intro n
  induction n with
  | zero => intro k m h; simp [natRange] at h
  | succ n ih =>
    intro k m h
    rcases List.mem_cons.mp h with h | h
    · omega
    · have := ih (k + 1) m h; omega

theorem natRange_nodup : ∀ (n k : Nat), (natRange k n).Nodup := by
  intro n
  induction n with
  | zero => intro k; simp [natRange]
  | succ n ih =>
    intro k
    refine List.nodup_cons.mpr ⟨fun h => ?_, ih (k + 1)⟩
    have := natRange_lb n (k + 1) k h
    omega

theorem natCharsAux_succ (f n : Nat) :
    natCharsAux (f + 1) n
      = if n < 10 then [digChar n] else natCharsAux f (n / 10) ++ [digChar (n % 10)] := rfl

theorem digChar_toNat (d : Nat) (h : d < 10) : (digChar d).toNat = 48 + d := by
  interval_cases d <;> decide

theorem digChar_ne_underscore (d : Nat) (h : d < 10) : (digChar d != '_') = true := by
  interval_cases d <;> decide

theorem natCharsAux_no_underscore : ∀ (f n : Nat), ∀ c ∈ natCharsAux f n, (c != '_') = true := by
  intro f
  induction f with
  | zero => intro n c hc; simp [natCharsAux] at hc
  | succ f ih =>
    intro n c hc
    by_cases h : n < 10
    · simp [natCharsAux, h] at hc
      rw [hc]
      exact digChar_ne_underscore n h
    · simp only [natCharsAux, if_neg h] at hc
      rcases List.mem_append.mp hc with h2 | h2
      · exact ih (n / 10) c h2
      · rw [List.mem_singleton.mp h2]
        exact digChar_ne_underscore (n % 10) (Nat.mod_lt n (by omega))

theorem pad2_no_underscore (k : Nat) : ∀ c ∈ (pad2 k).data, (c != '_') = true := by
  intro c hc
  unfold pad2 at hc
  by_cases h : k < 10
  · rw [if_pos h] at hc
    rcases List.mem_cons.mp hc with h2 | h2
    · rw [h2]; decide
    · exact natCharsAux_no_underscore (k + 1) k c h2
  · rw [if_neg h] at hc
    exact natCharsAux_no_underscore (k + 1) k c hc

theorem valDigits_append_last (l : List Char) (c : Char) :
    valDigits (l ++ [c]) = valDigits l * 10 + (c.toNat - 48) := by
  simp [valDigits, List.foldl_append]

theorem valDigits_natCharsAux : ∀ (f n : Nat), n ≤ f → valDigits (natCharsAux (f + 1) n) = n := by
  intro f
  induction f with
  | zero =>
    intro n hn
    have h0 : n = 0 := Nat.le_zero.mp hn
    subst h0
    decide
  | succ f ih =>
    intro n hn
    by_cases h : n < 10
    · rw [natCharsAux_succ, if_pos h]
      have := digChar_toNat n h
      simp [valDigits, this]
    · rw [natCharsAux_succ, if_neg h]
      rw [valDigits_append_last]
      have hdiv : n / 10 ≤ f := by
        have := Nat.div_lt_self (show 0 < n by omega) (show 1 < 10 by omega)
        omega
      rw [ih (n / 10) hdiv]
      rw [digChar_toNat (n % 10) (Nat.mod_lt n (by omega))]
      omega

theorem valDigits_pad2 (k : Nat) : valDigits (pad2 k).data = k := by
  unfold pad2
  by_cases h : k < 10
  · rw [if_pos h]
    show valDigits ('0' :: natChars k) = k
    have : valDigits ('0' :: natChars k) = valDigits (natChars k) := by
      simp [valDigits]
    rw [this]
    exact valDigits_natCharsAux k k (Nat.le_refl k)
  · rw [if_neg h]
    exact valDigits_natCharsAux k k (Nat.le_refl k)

theorem takeWhile_append_underscore :
    ∀ (l1 l2 : List Char), (∀ c ∈ l1, (c != '_') = true) →
      List.takeWhile (fun c => c != '_') (l1 ++ '_' :: l2) = l1 := by
  intro l1
  induction l1 with
  | nil => intro l2 _; simp [List.takeWhile]
  | cons a l1 ih =>
    intro l2 h
    have ha : (a != '_') = true := h a (List.mem_cons_self a l1)
    simp only [List.cons_append, List.takeWhile_cons, ha, if_true]
    rw [ih l2 (fun c hc => h c (List.mem_cons_of_mem a hc))]

theorem tagOf_append_pad2 (t : String) (k : Nat) : tagOf (t ++ "_" ++ pad2 k) = k := by
  unfold tagOf lastRun
  have hdata : (t ++ "_" ++ pad2 k).data = t.data ++ '_' :: (pad2 k).data := by
    rw [String.data_append, String.data_append]
    have h1 : ("_" : String).data = ['_'] := rfl
    rw [h1, List.append_assoc]
    rfl
  rw [hdata]
  rw [List.reverse_append]
  have hrc : ('_' :: (pad2 k).data).reverse = (pad2 k).data.reverse ++ ['_'] :=
    List.reverse_cons '_' (pad2 k).data
  rw [hrc, List.append_assoc]
  have : ['_'] ++ t.data.reverse = '_' :: t.data.reverse := rfl
  rw [this]
  rw [takeWhile_append_underscore ((pad2 k).data.reverse) (t.data.reverse)
        (fun c hc => pad2_no_underscore k c (List.mem_reverse.mp hc))]
  rw [List.reverse_reverse]
  exact valDigits_pad2 k

theorem pad2_length (k : Nat) (h : k < 100) : (pad2 k).length = 2 := by
  show (pad2 k).data.length = 2
  unfold pad2
  by_cases h10 : k < 10
  · rw [if_pos h10]
    show ('0' :: natChars k).length = 2
    unfold natChars
    rw [natCharsAux_succ, if_pos h10]
    rfl
  · rw [if_neg h10]
    show (natChars k).length = 2
    unfold natChars
    rw [natCharsAux_succ, if_neg h10]
    obtain ⟨f, rfl⟩ : ∃ f, k = f + 1 := ⟨k - 1, by omega⟩
    have hdiv : (f + 1) / 10 < 10 := by omega
    rw [natCharsAux_succ, if_pos hdiv]
    rfl

theorem es_call_tags (pcall : PCall) (b : Bool) (k : Nat) :
    ((es_call pcall b k).2.1.toList.map (fun r => tagOf r.name)
        = natRange k (es_call pcall b k).2.1.toList.length)
      ∧ (es_call pcall b k).2.2 = k + (es_call pcall b k).2.1.toList.length := by
  rcases hl : pcall.loop with _ | ⟨l0, _ | ⟨l1, rest⟩⟩ <;>
    simp [es_call, hl, natRange, tagOf_append_pad2]

theorem build_calls_tags : ∀ (cs : List PCall) (b : Bool) (k : Nat),
    ((build_calls cs b k).2.1.map (fun r => tagOf r.name)
        = natRange k (build_calls cs b k).2.1.length)
      ∧ (build_calls cs b k).2.2 = k + (build_calls cs b k).2.1.length := by
  intro cs
  induction cs with
  | nil => intro b k; simp [build_calls, natRange]
  | cons c cs ih =>
    intro b k
    have hc := es_call_tags c b k
    have hrest := ih b (es_call c b k).2.2
    simp only [build_calls]
    constructor
    · rw [List.map_append, hc.1, hrest.1, List.length_append, natRange_append]
      rw [hc.2]
    · rw [hrest.2, hc.2, List.length_append]
      omega

theorem build_group_tags (g : PGroup) (k : Nat) :
    ((build_group g k).2.1.map (fun r => tagOf r.name)
        = natRange k (build_group g k).2.1.length)
      ∧ (build_group g k).2.2 = k + (build_group g k).2.1.length := by
  have hb := build_calls_tags g.bcall true k
  have hr := build_calls_tags g.rcall false (build_calls g.bcall true k).2.2
  simp only [build_group]
  constructor
  · rw [List.map_append, hb.1, hr.1, List.length_append, natRange_append]
    rw [hb.2]
  · rw [hr.2, hb.2, List.length_append]
    omega

theorem build_entry_tags : ∀ (gs : List PGroup) (k : Nat),
    ((build_entry gs k).2.1.map (fun r => tagOf r.name)
        = natRange k (build_entry gs k).2.1.length)
      ∧ (build_entry gs k).2.2 = k + (build_entry gs k).2.1.length := by
  intro gs
  induction gs with
  | nil => intro k; simp [build_entry, natRange]
  | cons g gs ih =>
    intro k
    have hg := build_group_tags g k
    have hrest := ih (build_group g k).2.2
    simp only [build_entry]
    constructor
    · rw [List.map_append, hg.1, hrest.1, List.length_append, natRange_append]
      rw [hg.2]
    · rw [hrest.2, hg.2, List.length_append]
      omega

theorem build_rule_tags (p : PRule) (k : Nat) :
    ((build_rule p k).2.1.map (fun r => tagOf r.name)
        = natRange k (build_rule p k).2.1.length)
      ∧ (build_rule p k).2.2 = k + (build_rule p k).2.1.length := by
  have hb := build_calls_tags p.bcall true k
  have hr := build_calls_tags p.rcall false (build_calls p.bcall true k).2.2
  simp only [build_rule]
  constructor
  · rw [List.map_append, hb.1, hr.1, List.length_append, natRange_append]
    rw [hb.2]
  · rw [hr.2, hb.2, List.length_append]
    omega

theorem build_rules_tags : ∀ (ps : List PRule) (k : Nat),
    ((((build_rules ps k).1.map (fun pr => pr.2)).flatten).map (fun r => tagOf r.name)
        = natRange k (((build_rules ps k).1.map (fun pr => pr.2)).flatten).length)
      ∧ (build_rules ps k).2
          = k + (((build_rules ps k).1.map (fun pr => pr.2)).flatten).length := by
  intro ps
  induction ps with
  | nil => intro k; simp [build_rules, natRange]
  | cons p ps ih =>
    intro k
    have hp := build_rule_tags p k
    have hrest := ih (build_rule p k).2.2
    simp only [build_rules, List.map_cons, List.flatten_cons]
    constructor
    · rw [List.map_append, hp.1, hrest.1, List.length_append, natRange_append]
      rw [hp.2]
    · rw [hrest.2, hp.2, List.length_append]
      omega

theorem str_empty_append (s : String) : ("" : String) ++ s = s := by
  apply String.ext
  rw [String.data_append]
  rfl

theorem norm_tid_of_claim (t : PTrans) (c : String)
    (h : claim_code t.tid t.tvalues.length = some c) :
    norm_tid t = c ∧ ∃ ch tl, c.data = ch :: tl ∧ isWSChar ch = false := by
  unfold claim_code at h
  split_ifs at h with h1 h2 h3 h4 h5 h6
  · injection h with h
    subst h
    exact ⟨by simp [norm_tid, h1.1, h1.2], 's', ['a'], rfl, by decide⟩
  · injection h with h
    subst h
    exact ⟨by simp [norm_tid, h2.1, h2.2], 's', [], rfl, by decide⟩
  · injection h with h
    subst h
    exact ⟨by simp [norm_tid, h3], 't', ['x'], rfl, by decide⟩
  · injection h with h
    subst h
    exact ⟨by simp [norm_tid, h4], 't', ['y'], rfl, by decide⟩
  · injection h with h
    subst h
    exact ⟨by simp [norm_tid, h5], 't', ['z'], rfl, by decide⟩
  · injection h with h
    subst h
    rcases h6 with h6 | h6 | h6 <;>
      exact ⟨by simp [norm_tid, h6], 'r', _, by rw [h6], by decide⟩

theorem chunk_claim_eq (t : PTrans) (c : String) (h : chunk_claim t = some c) :
    c = chunk_impl t ∧ ∃ ch tl, (chunk_impl t).data = ch :: tl ∧ isWSChar ch = false := by
  unfold chunk_claim at h
  cases hcc : claim_code t.tid t.tvalues.length with
  | none => rw [hcc] at h; simp at h
  | some c0 =>
    rw [hcc] at h
    simp only [Option.map_some'] at h
    injection h with h
    obtain ⟨hnt, ch, tl, hdata, hws⟩ := norm_tid_of_claim t c0 hcc
    constructor
    · rw [← h]
      unfold chunk_impl
      rw [hnt]
    · refine ⟨ch, tl ++ (" " ++ pyJoin (" ") t.tvalues ++ " ").data, ?_, hws⟩
      unfold chunk_impl
      rw [hnt]
      simp only [String.data_append]
      rw [hdata]
      simp [List.append_assoc]

theorem mapM_chunk_eq : ∀ (ts : List PTrans) (l : List String),
    ts.mapM chunk_claim = some l → l = ts.map chunk_impl := by
  intro ts
  induction ts with
  | nil =>
    intro l h
    simp only [List.mapM_nil, pure] at h
    injection h with h
    rw [← h]
    rfl
  | cons t ts ih =>
    intro l h
    rw [List.mapM_cons] at h
    cases hc : chunk_claim t with
    | none => rw [hc] at h; simp at h
    | some c =>
      rw [hc] at h
      cases hm : ts.mapM chunk_claim with
      | none => rw [hm] at h; simp at h
      | some l2 =>
        rw [hm] at h
        simp only [Option.bind_some, Option.some_bind, bind, pure] at h
        injection h with h
        rw [← h, List.map_cons, ← ih l2 hm, (chunk_claim_eq t c hc).1]

theorem trans_foldl_eq : ∀ (ts : List PTrans) (acc : String),
    ts.foldl (fun tstr t => tstr ++ norm_tid t ++ " " ++ pyJoin (" ") t.tvalues ++ " ") acc
      = acc ++ strConcat (ts.map chunk_impl) := by
  intro ts
  induction ts with
  | nil =>
    intro acc
    simp only [List.foldl_nil, List.map_nil, strConcat]
    apply String.ext
    rw [String.data_append]
    simp
  | cons t ts ih =>
    intro acc
    simp only [List.foldl_cons, List.map_cons, strConcat]
    rw [ih]
    apply String.ext
    simp [String.data_append, chunk_impl, List.append_assoc]

theorem pyStripL_eq_pyRStripL (l : List Char)
    (h : ∀ c, l.head? = some c → isWSChar c = false) : pyStripL l = pyRStripL l := by
  cases l with
  | nil => rfl
  | cons c cs =>
    have hc := h c rfl
    unfold pyStripL pyRStripL
    rw [List.dropWhile_cons]
    simp [hc]

theorem strConcat_head (x : String) (xs : List String) (ch : Char) (tl : List Char)
    (hx : x.data = ch :: tl) :
    (strConcat (x :: xs)).data = ch :: (tl ++ (strConcat xs).data) := by
  show (x ++ strConcat xs).data = _
  rw [String.data_append, hx]
  rfl

theorem trans_str_nil : trans_str [] = "" := rfl

theorem firstMatch_shape_none (cs : List Char) (c0 : Char)
    (h : isFnumChar c0 = true ∨ c0 = '{') :
    firstMatch shapeWords (c0 :: cs) = none := by
  rcases h with h | rfl
  · have hm : c0 ∈ fnumCharsL := by
      simpa [isFnumChar, List.elem_iff] using h
    fin_cases hm <;> rfl
  · rfl

theorem pShape_none_of_pLoop (r : List Char) (x : PLoop × List Char)
    (h : pLoop r = some x) : pShape r = none := by
  cases hp : preParse r with
  | nil =>
    exfalso
    simp [pLoop, pLoopMult, pFnum, wordP, litP, exactChars, hp] at h
  | cons c cs =>
    have hcls : isFnumChar c = true ∨ c = '{' := by
      by_cases hfc : isFnumChar c
      · exact Or.inl hfc
      · by_cases hbr : c = '{'
        · exact Or.inr hbr
        · exfalso
          have hb : (c == '{') = false := by
            simp [hbr]
          simp [pLoop, pLoopMult, pFnum, wordP, litP, exactChars, hp, hfc, hb] at h
    unfold pShape
    rw [hp, firstMatch_shape_none cs c hcls]

theorem pShapeCall_none_of_two_loops (s : List Char) (l1 : PLoop) (r1 : List Char)
    (x2 : PLoop × List Char) (h1 : pLoop s = some (l1, r1)) (h2 : pLoop r1 = some x2) :
    pShapeCall s = none := by
  unfold pShapeCall
  rw [h1]
  show pShapeCallTail [l1] r1 = none
  unfold pShapeCallTail
  rw [pShape_none_of_pLoop r1 x2 h2]

theorem pShapeCallTail_fields (loops : List PLoop) (s1 : List Char) (c : PCall)
    (t : List Char) (h : pShapeCallTail loops s1 = some (c, t)) :
    c.trans = [] ∧ c.count = none ∧ c.rule_name = "" := by
  unfold pShapeCallTail at h
  cases hs : pShape s1 with
  | none => rw [hs] at h; exact absurd h (by simp)
  | some p =>
    obtain ⟨sh, s2⟩ := p
    rw [hs] at h
    simp only [Option.some.injEq, Prod.mk.injEq] at h
    obtain ⟨h1, _⟩ := h
    rw [← h1]
    exact ⟨rfl, rfl, rfl⟩

theorem pRuleCallTail_fields (loops : List PLoop) (s1 : List Char) (c : PCall)
    (t : List Char) (h : pRuleCallTail loops s1 = some (c, t)) :
    c.trans = [] ∧ c.count = none ∧ c.shape = "" := by
  unfold pRuleCallTail at h
  cases hs : pRuleName s1 with
  | none => rw [hs] at h; exact absurd h (by simp)
  | some p =>
    obtain ⟨rn, s2⟩ := p
    rw [hs] at h
    simp only [Option.some.injEq, Prod.mk.injEq] at h
    obtain ⟨h1, _⟩ := h
    rw [← h1]
    exact ⟨rfl, rfl, rfl⟩

theorem pShapeCall_fields (s : List Char) (c : PCall) (t : List Char)
    (h : pShapeCall s = some (c, t)) :
    c.trans = [] ∧ c.count = none ∧ c.rule_name = "" := by
  unfold pShapeCall at h
  cases hl : pLoop s with
  | some lt =>
    obtain ⟨l, t1⟩ := lt
    rw [hl] at h
    exact pShapeCallTail_fields [l] t1 c t h
  | none =>
    rw [hl] at h
    exact pShapeCallTail_fields [] s c t h

theorem pRuleCall_fields (s : List Char) (c : PCall) (t : List Char)
    (h : pRuleCall s = some (c, t)) :
    c.trans = [] ∧ c.count = none ∧ c.shape = "" := by
  unfold pRuleCall at h
  exact pRuleCallTail_fields (manyzP pLoop s).1 (manyzP pLoop s).2 c t h

/-! ## Claims -/

/-- Claim C1: for a call site wrapped in exactly two loops, `es_call`
emits at the call site one element carrying the outer loop's normalized
transforms and count and targeting the synthesized name
`<target>_<pad2 k>`, and creates exactly one new top-level rule of that
name whose single call carries the inner loop's normalized transforms
and count and targets the original shape or rule name; the sequence
number is zero-padded and two digits wide while the shared counter is
below 100. -/
theorem c1_two_loop_call (pc : PCall) (b : Bool) (k : Nat) (l0 l1 : PLoop)
    (hl : pc.loop = [l0, l1]) :
    es_call pc b k =
      ({ tag := if b then "instance" else "call",
         transforms := trans_str l0.trans, count := l0.count,
         attrName := if b then "shape" else "rule",
         attrValue := atr_value_of pc b ++ "_" ++ pad2 k },
       some { name := atr_value_of pc b ++ "_" ++ pad2 k, weight := none, max_depth := none,
              successor := none,
              calls := [{ tag := "call", transforms := trans_str l1.trans, count := l1.count,
                          attrName := if b then "shape" else "rule",
                          attrValue := atr_value_of pc b }] },
       k + 1)
      ∧ (k < 100 → (pad2 k).length = 2) := by
  refine ⟨?_, pad2_length k⟩
  simp [es_call, hl]

/-- Witness for C1: the round-trip scenario `3 * { ry 10 } 2 * { rz 5 }
foo` with the counter at 0 yields the call site `rule="foo_00"`,
`transforms="ry 10"`, `count="3"` and the synthesized rule `foo_00`
with one call `rule="foo"`, `transforms="rz 5"`, `count="2"`. -/
theorem c1_two_loop_call_witness :
    es_call pcC1 false 0 =
      ({ tag := "call", transforms := "ry 10", count := some "3",
         attrName := "rule", attrValue := "foo_00" },
       some { name := "foo_00", weight := none, max_depth := none, successor := none,
              calls := [{ tag := "call", transforms := "rz 5", count := some "2",
                          attrName := "rule", attrValue := "foo" }] },
       1)
      ∧ (pad2 0).length = 2 := by
  have h := c1_two_loop_call pcC1 false 0 _ _ rfl
  exact ⟨h.1.trans (by decide), h.2 (by omega)⟩

/-- Claim C2, counterexample: the parseable source
`{x 1}{y 2} foo rule foo_00 { box } rule foo { box }` produces a
document whose rule names are `entry, foo_00, foo_00, foo` — the
synthesized name collides with the explicitly defined rule `foo_00`,
so the rule names are not pairwise distinct. -/
theorem c2_counterexample :
    parseES esSrcDup = some (esResDup, [])
      ∧ ((es_xml2 esResDup).rules.map XRule.name) = ["entry", "foo_00", "foo_00", "foo"]
      ∧ ¬ ((es_xml2 esResDup).rules.map XRule.name).Nodup := by
  refine ⟨by decide, by decide, by decide⟩

/-- Claim C2, amended: within one document build the synthesized rule
names are pairwise distinct (the shared counter never repeats), but
nothing prevents a synthesized name from colliding with an explicitly
defined rule name. -/
theorem c2_synthesized_names_unique (r : PResults) :
    ((es_synth r).map XRule.name).Nodup := by
  have he := build_entry_tags r.entry_calls 0
  have hr := build_rules_tags (rule_defs_head r) (build_entry r.entry_calls 0).2.2
  apply List.Nodup.of_map (fun nm => tagOf nm)
  rw [List.map_map]
  have hcomp : ((fun nm => tagOf nm) ∘ XRule.name) = (fun x : XRule => tagOf x.name) := rfl
  rw [hcomp]
  simp only [es_synth]
  rw [List.map_append, he.1, hr.1, he.2]
  rw [← natRange_append]
  exact natRange_nodup _ _

/-- Claim C3: a `#define` directive makes the parse fail when it sits
before or inside the grammar's material, as the claim and the module
docstring demand — but `parseFile` defaults to `parseAll=False`, so a
directive after a complete `entry`+`rules` prefix is silently ignored
and an output document is still produced. -/
theorem c3_preprocessor_directive :
    parseES esSrcLeadingDefine = none
      ∧ parseES esSrcTrailingDefine = some (esResBasic, (" #define X 1").data)
      ∧ translate_eisen esSrcTrailingDefine = some (es_xml2 esResBasic) := by
  refine ⟨by decide, by decide, by decide⟩

/-- Claim C4: wherever the specification's normalization table and
concatenation rule define a result, `trans_str` computes exactly that
result. -/
theorem c4_normalizer_refines_claim (ts : List PTrans) (s : String)
    (h : trans_str_claim ts = some s) : trans_str ts = s := by
  unfold trans_str_claim at h
  cases hm : ts.mapM chunk_claim with
  | none => rw [hm] at h; simp at h
  | some l =>
    rw [hm] at h
    simp only [Option.map_some'] at h
    injection h with h
    have hl := mapM_chunk_eq ts l hm
    subst hl
    rw [← h]
    unfold trans_str
    rw [trans_foldl_eq, str_empty_append]
    unfold pyStrip pyRStrip
    congr 1
    apply pyStripL_eq_pyRStripL
    intro c hc
    cases ts with
    | nil => simp [strConcat] at hc
    | cons t ts2 =>
      have hct : ∃ c0, chunk_claim t = some c0 := by
        rw [List.mapM_cons] at hm
        cases hcc : chunk_claim t with
        | none => rw [hcc] at hm; simp at hm
        | some c0 => exact ⟨c0, rfl⟩
      obtain ⟨c0, hc0⟩ := hct
      obtain ⟨_, ch, tl, hdata, hws⟩ := chunk_claim_eq t c0 hc0
      rw [List.map_cons] at hc
      rw [strConcat_head (chunk_impl t) (List.map chunk_impl ts2) ch tl hdata] at hc
      simp only [List.head?_cons, Option.some.injEq] at hc
      rw [← hc]
      exact hws

/-- Witness for C4: a transform list exercising every row of the
table (`s` with one value, `x`, `rz`, `s` with three values). -/
theorem c4_normalizer_refines_claim_witness :
    trans_str_claim tsC4 = some ("sa 7 tx 1 rz 5 s 1 2 3")
      ∧ trans_str tsC4 = "sa 7 tx 1 rz 5 s 1 2 3" :=
  ⟨by decide, c4_normalizer_refines_claim tsC4 _ (by decide)⟩

/-- Claim C5, counterexample: a source consisting of only an entry
block (`box`) and no `rule` definitions does not translate — `main`
requires one-or-more rule definitions, so the parse and the whole
translation fail. -/
theorem c5_counterexample :
    parseES ("box") = none ∧ translate_eisen ("box") = none := by
  refine ⟨by decide, by decide⟩

/-- Claim C5, amended: an entry-only source fails to parse (the
grammar requires at least one rule definition after the entry block);
in every document the builder produces, the first rule is named
`entry` and holds the calls built from the entry block, as the
concrete source `box rule r { box }` illustrates. -/
theorem c5_entry_rule_first :
    (∀ r : PResults,
        ((es_xml2 r).rules.map XRule.name).head? = some ("entry")
          ∧ (es_xml2 r).rules.head? =
              some { name := "entry", weight := none, max_depth := none,
                     successor := none, calls := (build_entry r.entry_calls 0).1 })
      ∧ parseES esSrcBasic = some (esResBasic, [])
      ∧ es_xml2 esResBasic = docBasic := by
  refine ⟨fun r => ⟨?_, ?_⟩, by decide, by decide⟩
  · simp [es_xml2]
  · simp [es_xml2]

/-- Claim C6: the document's `max_depth` is the parsed global
`set md|maxdepth` value when one is present and exactly `1000`
otherwise; `set md 12 ...` concretely yields `12`. -/
theorem c6_max_depth :
    (∀ r : PResults,
        (r.global_md = none → (es_xml2 r).max_depth = "1000")
          ∧ ∀ v, r.global_md = some v → (es_xml2 r).max_depth = v)
      ∧ parseES esSrcGlobalMd = some (esResGlobalMd, [])
      ∧ (es_xml2 esResGlobalMd).max_depth = "12" := by
  refine ⟨fun r => ⟨fun h => ?_, fun v h => ?_⟩, by decide, by decide⟩
  · simp [es_xml2, h]
  · simp [es_xml2, h]

/-- Witness for C6: the default and the explicit setting, each at a
concrete parse result. -/
theorem c6_max_depth_witness :
    (es_xml2 esResBasic).max_depth = "1000"
      ∧ (es_xml2 esResGlobalMd).max_depth = "12" :=
  ⟨(c6_max_depth.1 esResBasic).1 rfl, (c6_max_depth.1 esResGlobalMd).2 ("12") rfl⟩

/-- Claim C7: a parsed call with no loop wrapper is emitted with empty
`transforms`, no `count`, and the call's own shape or rule name as
target. -/
theorem c7_no_loop_call (s : List Char) (b : Bool) (pc : PCall) (rest : List Char) (k : Nat)
    (hp : pCall s = some ((b, pc), rest)) (hl : pc.loop = []) :
    es_call pc b k =
      ({ tag := if b then "instance" else "call", transforms := "", count := none,
         attrName := if b then "shape" else "rule",
         attrValue := atr_value_of pc b }, none, k) := by
  have hfields : pc.trans = [] ∧ pc.count = none := by
    unfold pCall at hp
    cases hsc : pShapeCall s with
    | some ct =>
      obtain ⟨c0, t0⟩ := ct
      rw [hsc] at hp
      simp only [Option.some.injEq, Prod.mk.injEq] at hp
      obtain ⟨⟨hb, hpc⟩, _⟩ := hp
      have hf := pShapeCall_fields s c0 t0 hsc
      rw [← hpc]
      exact ⟨hf.1, hf.2.1⟩
    | none =>
      rw [hsc] at hp
      cases hrc : pRuleCall s with
      | none => rw [hrc] at hp; simp at hp
      | some ct =>
        obtain ⟨c0, t0⟩ := ct
        rw [hrc] at hp
        simp only [Option.some.injEq, Prod.mk.injEq] at hp
        obtain ⟨⟨hb, hpc⟩, _⟩ := hp
        have hf := pRuleCall_fields s c0 t0 hrc
        rw [← hpc]
        exact ⟨hf.1, hf.2.1⟩
  simp [es_call, hl, hfields.1, hfields.2, trans_str_nil]

/-- Witness for C7: the parsed call `box` with the counter at 5. -/
theorem c7_no_loop_call_witness :
    es_call pcBox true 5 = (xcBox, none, 5) := by
  have h := c7_no_loop_call (("box").data) true pcBox [] 5 (by decide) rfl
  exact h.trans (by decide)

/-- Claim C8, counterexample to the claim as stated: for a source with
trailing garbage the whole source never parses (`parseAll` semantics
fail), yet the translator still writes an output document, because
`parseFile` is called with the default `parseAll=False`. -/
theorem c8_counterexample :
    parseAllES esSrcTrailingJunk = none
      ∧ (translate_eisen esSrcTrailingJunk).isSome = true := by
  refine ⟨by decide, by decide⟩

/-- Claim C8, amended: the output document exists exactly when the
parse call (which accepts a valid prefix) succeeds, and it is the
document built from the full parse result; a parse failure produces no
output at all. -/
theorem c8_output_only_after_parse (s : String) :
    (parseES s = none → translate_eisen s = none)
      ∧ ∀ (r : PResults) (rest : List Char),
          parseES s = some (r, rest) → translate_eisen s = some (es_xml2 r) := by
  constructor
  · intro h
    unfold translate_eisen
    rw [h]
  · intro r rest h
    unfold translate_eisen
    rw [h]

/-- Witness for C8: a failing parse writes nothing; a successful parse
writes the built document. -/
theorem c8_output_only_after_parse_witness :
    translate_eisen ("box box") = none
      ∧ translate_eisen esSrcBasic = some (es_xml2 esResBasic) :=
  ⟨(c8_output_only_after_parse ("box box")).1 (by decide),
   (c8_output_only_after_parse esSrcBasic).2 esResBasic [] (by decide)⟩

/-- Claim C9: a rule call under three (or more) loops parses, and
`es_call` depends only on the first two loops — every later loop
contributes nothing. -/
theorem c9_extra_loops_ignored :
    (parseES esSrcThreeLoops = some (esResThreeLoops, [])
        ∧ es_xml2 esResThreeLoops = docThreeLoops)
      ∧ ∀ (pc : PCall) (b : Bool) (k : Nat), 2 ≤ pc.loop.length →
          es_call pc b k = es_call { pc with loop := pc.loop.take 2 } b k := by
  refine ⟨⟨by decide, by decide⟩, ?_⟩
  intro pc b k h
  rcases hl : pc.loop with _ | ⟨l0, _ | ⟨l1, rest⟩⟩
  · rw [hl] at h; simp at h
  · rw [hl] at h; simp at h
  · simp [es_call, hl, atr_value_of]

/-- Witness for C9: the three-loop call `pcC9` behaves as its two-loop
truncation. -/
theorem c9_extra_loops_ignored_witness :
    es_call pcC9 false 0 =
      es_call { loop := [{ count := none, trans := [{ tid := "x", tvalues := ["1"] }] },
                         { count := none, trans := [{ tid := "y", tvalues := ["2"] }] }],
                shape := "", rule_name := "foo", trans := [], count := none } false 0 := by
  have h := c9_extra_loops_ignored.2 pcC9 false 0 (by decide)
  exact h.trans (by decide)

/-- Claim C10: when two loops open a call, `shape_call` cannot match
(its single optional loop leaves the second loop where a shape keyword
is required), so `MatchFirst` classifies the call as a rule call; the
concrete source `{x 1}{y 2} box ...` parses the shape word `box` as a
rule name and the document holds only `call` elements with `rule`
attributes, no `instance`/`shape` element. -/
theorem c10_two_loops_shape_word :
    (∀ (s : List Char) (l1 : PLoop) (r1 : List Char) (x2 : PLoop × List Char),
        pLoop s = some (l1, r1) → pLoop r1 = some x2 →
          pShapeCall s = none
            ∧ pCall s = (match pRuleCall s with
                          | some (c, t) => some ((false, c), t)
                          | none => none))
      ∧ parseES esSrcTwoLoopShape = some (esResTwoLoopShape, [])
      ∧ es_xml2 esResTwoLoopShape = docTwoLoopShape := by
  refine ⟨?_, by decide, by decide⟩
  intro s l1 r1 x2 h1 h2
  have hsc := pShapeCall_none_of_two_loops s l1 r1 x2 h1 h2
  refine ⟨hsc, ?_⟩
  simp [pCall, hsc]

/-- Witness for C10: the doubly-looped call text `{x 1}{y 2} box` makes
`shape_call` fail. -/
theorem c10_two_loops_shape_word_witness :
    pShapeCall (("{x 1}{y 2} box").data) = none :=
  (c10_two_loops_shape_word.1 (("{x 1}{y 2} box").data)
    { count := none, trans := [{ tid := "x", tvalues := ["1"] }] }
    (("{y 2} box").data)
    ({ count := none, trans := [{ tid := "y", tvalues := ["2"] }] }, (" box").data)
    (by decide) (by decide)).1
